import Mathlib

/-!
Verification of the disparity evaluation pipeline of
`examples/StereoDepth/stereo_depth_from_host.py`: the PFM ground-truth
loader `read_pfm`, the Middlebury-style error-metric function
`calculate_err_measures`, and the `DatasetManager` index cycling.

Modelling conventions:
* NumPy float values are modelled as `Option ℚ` (`none` is the `+inf`
  sentinel, `some q` a finite value); the arithmetic performed by the
  evaluator on valid pixels is exact in this fragment.  `-inf`/`NaN`
  inputs are outside the modelled domain.
* In-place array mutation is modelled by explicit result arrays
  (`zeroGt`, `zeroOak`) which the evaluator also returns.
* A raised Python exception is modelled as an `Except.error` value.
  `np.percentile` applied to an empty array raises (an
  `IndexError`/`ValueError` from the partition/take machinery, in every
  NumPy version); this is modelled as the error `emptyPercentile`.
  NumPy float division by an integer zero does *not* raise (it yields
  NaN with a warning); on every path on which the evaluator returns a
  report all the divisions below have positive denominators, so `ℚ`
  division is faithful there.
* The PFM file is modelled as its list of bytes; the open file handle
  is threaded explicitly to record the handle lifetime.  The source
  never closes the handle, so no operation of the model does either.
-/

set_option maxHeartbeats 1000000
set_option maxRecDepth 40000

deriving instance DecidableEq for Except

/- The Batteries rational-arithmetic primitives are `@[irreducible]`, which
blocks `decide` on concrete `ℚ` goals at elaboration time; restore the
default reducibility locally (the kernel is unaffected either way). -/
attribute [local semireducible] Rat.mul Rat.inv Rat.add Rat.sub

namespace StereoDepthHost

/-! ## Data model for the evaluator -/

/-- Pixel value: `none` models the `+inf` no-data sentinel, `some q` a finite value. -/
abbrev Px := Option ℚ

/-- finite value of a pixel, with the sentinel read as `0` (only used after zeroing). -/
def pxVal (p : Px) : ℚ := p.getD 0

/-- `p != np.inf` for a pixel. -/
def pxValid (p : Px) : Bool := p.isSome

/-- A dense 2-D float map, row-major, as produced by NumPy: dimensions plus flat data. -/
structure DMap where
  hgt : ℕ
  wid : ℕ
  data : List Px
deriving DecidableEq

/-- Well-formedness: the flat buffer has exactly `hgt * wid` entries. -/
def DMap.wf (m : DMap) : Prop := m.data.length = m.hgt * m.wid

instance (m : DMap) : Decidable m.wf :=
  decidable_of_iff (m.data.length = m.hgt * m.wid) Iff.rfl

/-- numpy `.shape` of a 2-D map. -/
def DMap.shape (m : DMap) : ℕ × ℕ := (m.hgt, m.wid)

/-! ## calculate_err_measures (lines 747-801 of the source) -/

/-- `gt_mask = gt_img != np.inf`, per pixel. -/
def gtMask (g : DMap) : List Bool := g.data.map pxValid

/-- `mask = gt_mask & oak_mask`, per pixel. -/
def jointMask (g o : DMap) : List Bool :=
  List.zipWith (fun a b => pxValid a && pxValid b) g.data o.data

/-- `gt_img[~gt_mask] = 0.` : the ground-truth array after the in-place zeroing. -/
def zeroGt (g : DMap) : DMap :=
  ⟨g.hgt, g.wid, g.data.map (fun p => if pxValid p then p else some 0)⟩

/-- `oak_img[~mask] = 0.` : the computed array after the in-place zeroing. -/
def zeroOak (g o : DMap) : DMap :=
  ⟨o.hgt, o.wid,
    List.zipWith (fun a b => if pxValid a && pxValid b then b else some 0) g.data o.data⟩

/-- `err = np.abs(gt_img - oak_img)` computed on the zeroed arrays. -/
def errList (g o : DMap) : List ℚ :=
  List.zipWith (fun a b => |pxVal a - pxVal b|) (zeroGt g).data (zeroOak g o).data

/-- `n = np.sum(gt_mask)`. -/
def nUpd (g : DMap) : ℕ := g.data.countP pxValid

/-- `invalid = np.sum(gt_mask & ~oak_mask)`. -/
def invalidUpd (g o : DMap) : ℕ :=
  (List.zipWith (fun a b => pxValid a && !(pxValid b)) g.data o.data).countP (fun b => b)

/-- `errs = err[mask]` : the error values restricted to the joint validity mask. -/
def maskedErrs (g o : DMap) : List ℚ :=
  (List.zip (jointMask g o) (errList g o)).filterMap
    (fun me => if me.1 then some me.2 else none)

/-- `np.sum(mask & (err > t))` for a threshold `t`. -/
def badCount (g o : DMap) (t : ℚ) : ℕ := (maskedErrs g o).countP (fun e => t < e)

/-- insertion into a sorted list of rationals. -/
def insSorted (x : ℚ) : List ℚ → List ℚ
  | [] => [x]
  | y :: ys => if x ≤ y then x :: y :: ys else y :: insSorted x ys

/-- ascending sort of a list of rationals. -/
def sortQ (l : List ℚ) : List ℚ := l.foldr insSorted []

/-- `np.percentile(l, q)` with the default linear interpolation, meaningful for
nonempty `l` (on an empty array NumPy raises; the caller below checks that). -/
def percentile (l : List ℚ) (q : ℚ) : ℚ :=
  let s := sortQ l
  let v : ℚ := q / 100 * ((s.length : ℚ) - 1)
  let xlo := s.getD (⌊v⌋).toNat 0
  let xhi := s.getD (⌈v⌉).toNat 0
  xlo + (v - (⌊v⌋ : ℚ)) * (xhi - xlo)

/-- The dict returned by `calculate_err_measures`. -/
structure ErrReport where
  bad05_p : ℚ
  total_bad05_p : ℚ
  bad1_p : ℚ
  total_bad1_p : ℚ
  bad2_p : ℚ
  total_bad2_p : ℚ
  bad4_p : ℚ
  total_bad4_p : ℚ
  invalid_p : ℚ
  avg_err : ℚ
  mse : ℚ
  a50 : ℚ
  a90 : ℚ
  a95 : ℚ
  a99 : ℚ
deriving DecidableEq

/-- Exceptions the evaluator can raise. -/
inductive EvalErr where
  /-- the `assert gt_img.shape == oak_img.shape` failing (an `AssertionError`). -/
  | shapeMismatch
  /-- `np.percentile` applied to the empty `err[mask]` raising. -/
  | emptyPercentile
deriving DecidableEq

/-- Shallow embedding of `calculate_err_measures`.  Besides the report it returns
the two input arrays as they stand after the documented in-place zeroing. -/
def calculate_err_measures (g o : DMap) :
    Except EvalErr (ErrReport × DMap × DMap) :=
  if g.shape ≠ o.shape then .error .shapeMismatch
  else if (maskedErrs g o).isEmpty then .error .emptyPercentile
  else
    .ok (⟨100 * (badCount g o (1/2) : ℚ) / (nUpd g : ℚ),
          100 * ((badCount g o (1/2) : ℚ) + (invalidUpd g o : ℚ)) / (nUpd g : ℚ),
          100 * (badCount g o 1 : ℚ) / (nUpd g : ℚ),
          100 * ((badCount g o 1 : ℚ) + (invalidUpd g o : ℚ)) / (nUpd g : ℚ),
          100 * (badCount g o 2 : ℚ) / (nUpd g : ℚ),
          100 * ((badCount g o 2 : ℚ) + (invalidUpd g o : ℚ)) / (nUpd g : ℚ),
          100 * (badCount g o 4 : ℚ) / (nUpd g : ℚ),
          100 * ((badCount g o 4 : ℚ) + (invalidUpd g o : ℚ)) / (nUpd g : ℚ),
          100 * (invalidUpd g o : ℚ) / (nUpd g : ℚ),
          (maskedErrs g o).sum / ((nUpd g : ℚ) - (invalidUpd g o : ℚ)),
          ((maskedErrs g o).map (fun e => e ^ 2)).sum
            / ((nUpd g : ℚ) - (invalidUpd g o : ℚ)),
          percentile (maskedErrs g o) 50, percentile (maskedErrs g o) 90,
          percentile (maskedErrs g o) 95, percentile (maskedErrs g o) 99⟩,
         zeroGt g, zeroOak g o)

/-! ## DatasetManager (lines 690-710 of the source) -/

/-- State of a `DatasetManager`: base path, subdirectory names, current index.
The index is an integer, as in Python; `%` below is euclidean mod, which agrees
with Python's `%` for a positive modulus. -/
structure DatasetManager where
  path : String
  names : List String
  index : ℤ
deriving DecidableEq

/-- `os.path.join(self.path, self.names[self.index])`, with `os.path.join`
abstracted as separator concatenation. -/
def DatasetManager.get (m : DatasetManager) : String :=
  m.path ++ "/" ++ m.names.getD m.index.toNat ""

/-- `self.names[self.index]`. -/
def DatasetManager.get_name (m : DatasetManager) : String :=
  m.names.getD m.index.toNat ""

/-- `next`: advance the index modulo the number of datasets, return `get()`. -/
def DatasetManager.next (m : DatasetManager) : DatasetManager × String :=
  let m2 : DatasetManager := ⟨m.path, m.names, (m.index + 1) % (m.names.length : ℤ)⟩
  (m2, m2.get)

/-- `prev`: step the index back modulo the number of datasets, return `get()`. -/
def DatasetManager.prev (m : DatasetManager) : DatasetManager × String :=
  let m2 : DatasetManager := ⟨m.path, m.names, (m.index - 1) % (m.names.length : ℤ)⟩
  (m2, m2.get)

/-! ## read_pfm (lines 713-745 of the source)

The file is a list of byte values.  `open` produces a handle (remaining
bytes plus an open flag); `readline`, `rstrip`, ascii `decode`, the
`re.search(r"(\d+)\s(\d+)", ...)` header scan, `float(...)`, and
`np.fromfile(file, endian + "f")` are each given a direct model. -/

/-- An open binary file handle: the bytes not yet consumed, and whether the
handle is still open.  `read_pfm` in the source contains no `close()` call,
so no operation below ever clears `isOpen`. -/
structure Handle where
  remaining : List ℕ
  isOpen : Bool
deriving DecidableEq

/-- `file.readline()`: split off the bytes up to and including the first
newline (byte 10), or everything when no newline remains. -/
def readlineAux : List ℕ → List ℕ × List ℕ
  | [] => ([], [])
  | c :: cs =>
    if c = 10 then ([10], cs)
    else
      let p := readlineAux cs
      (c :: p.1, p.2)

/-- bytes treated as trailing whitespace by `bytes.rstrip()`. -/
def wsByte (c : ℕ) : Bool := c = 32 || c = 9 || c = 10 || c = 13 || c = 11 || c = 12

/-- `bytes.rstrip()`. -/
def rstrip (l : List ℕ) : List ℕ := (l.reverse.dropWhile wsByte).reverse

/-- `bytes.decode("ascii")`: succeeds iff every byte is below 128
(otherwise Python raises `UnicodeDecodeError`). -/
def decodeAscii (l : List ℕ) : Option (List ℕ) :=
  if l.all (fun c => c < 128) then some l else none

/-- ASCII decimal digit. -/
def isDigit (c : ℕ) : Bool := 48 ≤ c && c ≤ 57

/-- characters matched by the regex class `\s` on an ASCII string. -/
def isSpaceRe (c : ℕ) : Bool :=
  c = 32 || c = 9 || c = 10 || c = 11 || c = 12 || c = 13 ||
  c = 28 || c = 29 || c = 30 || c = 31

/-- a match of the pattern `(\d+)\s(\d+)` anchored at the start of `l`, with
the regex's greedy captures.  With a greedy `\d+` the only split that can
succeed takes the whole leading digit run (any shorter prefix leaves a digit
where `\s` must match), so the two captures are the maximal runs. -/
def dimMatchAt : List ℕ → Option (List ℕ × List ℕ)
  | [] => none
  | c :: rest =>
    if isDigit c then
      let r1 := (c :: rest).takeWhile isDigit
      match (c :: rest).dropWhile isDigit with
      | [] => none
      | d :: rest2 =>
        if isSpaceRe d then
          let r2 := rest2.takeWhile isDigit
          if r2.isEmpty then none else some (r1, r2)
        else none
    else none

/-- `re.search(r"(\d+)\s(\d+)", line)`: try the pattern at each start
position, leftmost first. -/
def dimSearch : List ℕ → Option (List ℕ × List ℕ)
  | [] => none
  | c :: rest =>
    match dimMatchAt (c :: rest) with
    | some p => some p
    | none => dimSearch rest

/-- `int(...)` on a run of ASCII digits. -/
def digitsVal (l : List ℕ) : ℕ := l.foldl (fun a c => a * 10 + (c - 48)) 0

/-- exponent digits with optional sign, consuming the whole rest of the token. -/
def parseSignedDigits : List ℕ → Option ℤ
  | 43 :: r => if !r.isEmpty && r.all isDigit then some ((digitsVal r : ℤ)) else none
  | 45 :: r => if !r.isEmpty && r.all isDigit then some (-(digitsVal r : ℤ)) else none
  | r => if !r.isEmpty && r.all isDigit then some ((digitsVal r : ℤ)) else none

/-- optional `e`/`E` exponent suffix ending the token. -/
def parseExpPart : List ℕ → Option ℤ
  | [] => some 0
  | 101 :: r => parseSignedDigits r
  | 69 :: r => parseSignedDigits r
  | _ => none

/-- `float(...)` on an ASCII token: optional sign, integer part, optional
fractional part, optional exponent.  (A faithful subset of the Python
float grammar; `inf`/`nan` literals and underscores are not modelled.)
The value is exact, which is faithful for the header fragments the
claims quantify over. -/
def parseFloat (l0 : List ℕ) : Option ℚ :=
  let sl : ℚ × List ℕ :=
    match l0 with
    | 43 :: r => (1, r)
    | 45 :: r => (-1, r)
    | r => (1, r)
  let ip := sl.2.takeWhile isDigit
  let l2 := sl.2.dropWhile isDigit
  let fl : List ℕ × List ℕ :=
    match l2 with
    | 46 :: r => (r.takeWhile isDigit, r.dropWhile isDigit)
    | _ => ([], l2)
  if ip.isEmpty && fl.1.isEmpty then none
  else
    match parseExpPart fl.2 with
    | none => none
    | some e =>
      some (sl.1 * ((digitsVal ip : ℚ) + (digitsVal fl.1 : ℚ) / 10 ^ fl.1.length)
              * (10 : ℚ) ^ e)

/-- An IEEE-754 binary32 value as decoded from the payload. -/
inductive F32 where
  | inf
  | ninf
  | nan
  | val (q : ℚ)
deriving DecidableEq

/-- interpretation of a 32-bit word as an IEEE-754 binary32 value. -/
def decodeWord (w : ℕ) : F32 :=
  let s : ℕ := w / 2 ^ 31
  let e : ℕ := (w / 2 ^ 23) % 2 ^ 8
  let f : ℕ := w % 2 ^ 23
  if e = 255 then
    if f = 0 then (if s = 0 then .inf else .ninf) else .nan
  else if e = 0 then
    .val ((if s = 0 then (1 : ℚ) else -1) * (f : ℚ) / 2 ^ 149)
  else
    .val ((if s = 0 then (1 : ℚ) else -1) * ((2 ^ 23 + f : ℕ) : ℚ)
            * (2 : ℚ) ^ ((e : ℤ) - 150))

/-- a 4-byte group read most significant byte first (`">f"`). -/
def wordBE : List ℕ → ℕ
  | [b0, b1, b2, b3] => ((b0 * 256 + b1) * 256 + b2) * 256 + b3
  | _ => 0

/-- a 4-byte group read least significant byte first (`"<f"`). -/
def wordLE : List ℕ → ℕ
  | [b0, b1, b2, b3] => b0 + 256 * (b1 + 256 * (b2 + 256 * b3))
  | _ => 0

/-- split into complete 4-byte groups; `np.fromfile` ignores a trailing
incomplete item. -/
def chunk4 : List ℕ → List (List ℕ)
  | a :: b :: c :: d :: rest => [a, b, c, d] :: chunk4 rest
  | _ => []

/-- `np.fromfile(file, endian + "f")` on the remaining bytes. -/
def decodePayload (little : Bool) (p : List ℕ) : List F32 :=
  (chunk4 p).map (fun g => decodeWord (if little then wordLE g else wordBE g))

/-- split a list into consecutive chunks of `n` elements (`n > 0`). -/
def chunkBy (n : ℕ) : List F32 → List (List F32)
  | [] => []
  | x :: xs =>
    if n = 0 then []
    else (x :: xs).take n :: chunkBy n ((x :: xs).drop n)
termination_by l => l.length
decreasing_by
  simp only [List.length_drop, List.length_cons]
  omega

/-- `np.flip(a, axis=0)` on a row-major buffer whose rows have `n` entries. -/
def flipRows (n : ℕ) (data : List F32) : List F32 :=
  ((chunkBy n data).reverse).flatten

/-- A NumPy array: shape plus row-major data. -/
structure NDArr where
  shape : List ℕ
  data : List F32
deriving DecidableEq

/-- Exceptions `read_pfm` can raise. -/
inductive PfmErr where
  /-- `UnicodeDecodeError` from `.decode("ascii")`. -/
  | decodeError
  /-- `Exception("Not a PFM file.")`. -/
  | notPFM
  /-- `Exception("Malformed PFM header.")`. -/
  | malformedHeader
  /-- `ValueError` from `float(...)` on the scale line. -/
  | scaleParseError
  /-- `ValueError` from `np.reshape` on a size mismatch. -/
  | reshapeError
deriving DecidableEq

/-- the part of `read_pfm` after the magic token has fixed `color`. -/
def readRest (color : Bool) (rest1 : List ℕ) : Except PfmErr (NDArr × ℚ) × Handle :=
  let p2 := readlineAux rest1
  match decodeAscii p2.1 with
  | none => (.error .decodeError, ⟨p2.2, true⟩)
  | some dline =>
    match dimSearch dline with
    | none => (.error .malformedHeader, ⟨p2.2, true⟩)
    | some wh =>
      let width := digitsVal wh.1
      let height := digitsVal wh.2
      let p3 := readlineAux p2.2
      match parseFloat (rstrip p3.1) with
      | none => (.error .scaleParseError, ⟨p3.2, true⟩)
      | some sc =>
        let scaleRet := if sc < 0 then -sc else sc
        let data := decodePayload (decide (sc < 0)) p3.2
        let chans := if color then 3 else 1
        if data.length = height * width * chans then
          (.ok (⟨if color then [height, width, 3] else [height, width],
                 flipRows (width * chans) data⟩, scaleRet),
           ⟨[], true⟩)
        else (.error .reshapeError, ⟨[], true⟩)

/-- Shallow embedding of `read_pfm`, over the file's bytes.  The second
component is the final state of the file handle (the handle at the point
an exception is raised, for the error outcomes). -/
def read_pfm (bytes : List ℕ) : Except PfmErr (NDArr × ℚ) × Handle :=
  let p1 := readlineAux bytes
  match decodeAscii (rstrip p1.1) with
  | none => (.error .decodeError, ⟨p1.2, true⟩)
  | some m =>
    if m = [80, 70] then readRest true p1.2
    else if m = [80, 102] then readRest false p1.2
    else (.error .notPFM, ⟨p1.2, true⟩)

/-- assemble a PFM byte file from a magic line, dimension line, scale line
and binary payload. -/
def mkPFM (magic dimLine scaleLine payload : List ℕ) : List ℕ :=
  magic ++ 10 :: (dimLine ++ 10 :: (scaleLine ++ 10 :: payload))

/-! ## Supporting lemmas -/

theorem filterMap_zip_of_false {l1 : List Bool} {l2 : List ℚ}
    (h : ∀ b ∈ l1, b = false) :
    (List.zip l1 l2).filterMap (fun me => if me.1 then some me.2 else none) = [] := by
  induction l1 generalizing l2 with
  | nil => simp
  | cons b bs ih =>
    cases l2 with
    | nil => simp
    | cons x xs =>
      have hb : b = false := h b (by simp)
      simpa [hb] using ih (fun c hc => h c (by simp [hc]))

theorem zipWith_valid_false_left {l1 l2 : List Px} (h : ∀ p ∈ l1, p = none) :
    ∀ b ∈ List.zipWith (fun a b => pxValid a && pxValid b) l1 l2, b = false := by
  induction l1 generalizing l2 with
  | nil => simp
  | cons a as ih =>
    cases l2 with
    | nil => simp
    | cons x xs =>
      intro b hb
      rw [List.zipWith_cons_cons, List.mem_cons] at hb
      rcases hb with hb | hb
      · have ha : a = none := h a (by simp)
        rw [hb, ha]
        simp [pxValid]
      · exact ih (fun c hc => h c (List.mem_cons_of_mem a hc)) _ hb

theorem zipWith_valid_false_right {l1 l2 : List Px} (h : ∀ p ∈ l2, p = none) :
    ∀ b ∈ List.zipWith (fun a b => pxValid a && pxValid b) l1 l2, b = false := by
  induction l1 generalizing l2 with
  | nil => simp
  | cons a as ih =>
    cases l2 with
    | nil => simp
    | cons x xs =>
      intro b hb
      rw [List.zipWith_cons_cons, List.mem_cons] at hb
      rcases hb with hb | hb
      · have hx : x = none := h x (by simp)
        rw [hb, hx]
        simp [pxValid]
      · exact ih (fun c hc => h c (List.mem_cons_of_mem x hc)) _ hb

theorem maskedErrs_eq_nil_left {g o : DMap} (h : ∀ p ∈ g.data, p = none) :
    maskedErrs g o = [] :=
  filterMap_zip_of_false (zipWith_valid_false_left h)

theorem maskedErrs_eq_nil_right {g o : DMap} (h : ∀ p ∈ o.data, p = none) :
    maskedErrs g o = [] :=
  filterMap_zip_of_false (zipWith_valid_false_right h)

theorem countP_invalid_of_right_none {l1 l2 : List Px}
    (hlen : l1.length = l2.length) (h : ∀ p ∈ l2, p = none) :
    (List.zipWith (fun a b => pxValid a && !(pxValid b)) l1 l2).countP (fun b => b)
      = l1.countP pxValid := by
  induction l1 generalizing l2 with
  | nil => simp
  | cons a as ih =>
    cases l2 with
    | nil => simp at hlen
    | cons x xs =>
      have hx : x = none := h x (by simp)
      have hlen2 : as.length = xs.length := by simpa using hlen
      have ih2 := ih hlen2 (fun c hc => h c (List.mem_cons_of_mem x hc))
      subst hx
      simp only [List.zipWith_cons_cons, List.countP_cons, ih2]
      simp [pxValid]

theorem dmap_length_eq {g o : DMap} (hs : g.shape = o.shape)
    (hg : g.wf) (ho : o.wf) : g.data.length = o.data.length := by
  have h1 : g.hgt = o.hgt := congrArg Prod.fst hs
  have h2 : g.wid = o.wid := congrArg Prod.snd hs
  rw [hg, ho, h1, h2]

/-! ## Claims about calculate_err_measures -/

/-- Claim C1 (amended): on a ground-truth map that is entirely `+infinity`
(`n = 0`), `calculate_err_measures` does not produce a dedicated
`DegenerateInputError`; it raises the incidental exception coming from
taking a percentile of the empty masked error list. -/
theorem degenerate_groundtruth_raises (g o : DMap)
    (hs : g.shape = o.shape) (hall : ∀ p ∈ g.data, p = none) :
    calculate_err_measures g o = .error .emptyPercentile := by
  simp [calculate_err_measures, hs, maskedErrs_eq_nil_left hall]

/-- Witness for C1's amended theorem at a concrete degenerate input. -/
theorem degenerate_groundtruth_raises_witness :
    calculate_err_measures ⟨1, 1, [none]⟩ ⟨1, 1, [some 5]⟩ = .error .emptyPercentile :=
  degenerate_groundtruth_raises ⟨1, 1, [none]⟩ ⟨1, 1, [some 5]⟩ (by decide) (by decide)

/-- Counterexample to Claim C1 as stated: the degenerate-input failure is not
a distinguishable error.  A ground truth that is entirely `+infinity` raises
exactly the same exception as a non-degenerate input whose computed map is
entirely `+infinity` (`n = 1` there), and the source defines no
`DegenerateInputError` at all. -/
theorem degenerate_error_not_distinguishable :
    calculate_err_measures ⟨1, 1, [none]⟩ ⟨1, 1, [some 2]⟩ = .error .emptyPercentile ∧
    calculate_err_measures ⟨1, 1, [some 3]⟩ ⟨1, 1, [none]⟩ = .error .emptyPercentile := by
  constructor <;> decide

/-- Claim C3 (amended): when the computed map is entirely `+infinity` and the
ground truth has `n ≥ 1` valid pixels, `calculate_err_measures` does not
return a report: the percentile of the empty masked error list raises.  The
counts it computes before that point do satisfy `invalid = n` and
`bad_t = 0`, so the would-be `invalid_percent` and `total_bad_t_percent`
are `100`. -/
theorem all_invalid_computed_raises (g o : DMap) (hs : g.shape = o.shape)
    (hg : g.wf) (ho : o.wf) (hall : ∀ p ∈ o.data, p = none) :
    calculate_err_measures g o = .error .emptyPercentile ∧
    invalidUpd g o = nUpd g ∧ ∀ t : ℚ, badCount g o t = 0 := by
  refine ⟨?_, ?_, ?_⟩
  · simp [calculate_err_measures, hs, maskedErrs_eq_nil_right hall]
  · exact countP_invalid_of_right_none (dmap_length_eq hs hg ho) hall
  · intro t
    simp [badCount, maskedErrs_eq_nil_right hall]

/-- Witness for C3's amended theorem at a concrete input with `n = 1`. -/
theorem all_invalid_computed_raises_witness :
    calculate_err_measures ⟨1, 1, [some 2]⟩ ⟨1, 1, [none]⟩ = .error .emptyPercentile ∧
    invalidUpd ⟨1, 1, [some 2]⟩ ⟨1, 1, [none]⟩ = nUpd ⟨1, 1, [some 2]⟩ ∧
    badCount ⟨1, 1, [some 2]⟩ ⟨1, 1, [none]⟩ 4 = 0 :=
  have h := all_invalid_computed_raises ⟨1, 1, [some 2]⟩ ⟨1, 1, [none]⟩
    (by decide) (by decide) (by decide) (by decide)
  ⟨h.1, h.2.1, h.2.2 4⟩

/-- Counterexample to Claim C3 as stated: with computed entirely `+infinity`
and one valid ground-truth pixel the function raises instead of returning a
report with `invalid_percent == 100`. -/
theorem all_invalid_computed_no_report :
    calculate_err_measures ⟨1, 1, [some 1]⟩ ⟨1, 1, [none]⟩ = .error .emptyPercentile := by
  decide

/-- Claim C7: maps of differing shape fail with the distinguishable
shape-mismatch error (the `assert`) and produce no report; for maps of equal
shape that error is never raised. -/
theorem shape_mismatch_check (g o : DMap) :
    (g.shape ≠ o.shape → calculate_err_measures g o = .error .shapeMismatch) ∧
    (g.shape = o.shape → calculate_err_measures g o ≠ .error .shapeMismatch) := by
  constructor
  · intro h
    simp [calculate_err_measures, h]
  · intro h
    simp only [calculate_err_measures, h, ne_eq, not_true_eq_false, if_false]
    split <;> simp

/-- Witness for C7 at concrete inputs: a mismatched pair fails with the
shape-mismatch error, an equal-shape pair never does. -/
theorem shape_mismatch_check_witness :
    calculate_err_measures ⟨1, 2, [some 1, some 2]⟩ ⟨2, 1, [some 1, some 2]⟩
      = .error .shapeMismatch ∧
    calculate_err_measures ⟨1, 1, [some 1]⟩ ⟨1, 1, [some 4]⟩ ≠ .error .shapeMismatch :=
  ⟨(shape_mismatch_check _ _).1 (by decide), (shape_mismatch_check _ _).2 (by decide)⟩

/-- Claim C8: for every input pair on which `calculate_err_measures` returns a
report, the bad-pixel percentages are monotone non-increasing in the
threshold. -/
theorem bad_percent_threshold_monotone (g o : DMap) (r : ErrReport) (g2 o2 : DMap)
    (h : calculate_err_measures g o = .ok (r, g2, o2)) :
    r.bad1_p ≤ r.bad05_p ∧ r.bad2_p ≤ r.bad1_p ∧ r.bad4_p ≤ r.bad2_p := by
  have hcount : ∀ s t : ℚ, s ≤ t → badCount g o t ≤ badCount g o s := by
    intro s t hst
    exact List.countP_mono_left (fun e _ hlt => decide_eq_true
      (lt_of_le_of_lt hst (of_decide_eq_true hlt)))
  have hdiv : ∀ a b : ℕ, a ≤ b →
      100 * (a : ℚ) / (nUpd g : ℚ) ≤ 100 * (b : ℚ) / (nUpd g : ℚ) := by
    intro a b hab
    rcases eq_or_lt_of_le (Nat.cast_nonneg (α := ℚ) (nUpd g)) with h0 | h0
    · rw [← h0]
      simp
    · gcongr
  unfold calculate_err_measures at h
  split at h
  · exact absurd h (by simp)
  · split at h
    · exact absurd h (by simp)
    · rw [Except.ok.injEq, Prod.mk.injEq] at h
      have hr := h.1
      subst hr
      refine ⟨hdiv _ _ (hcount _ _ (by norm_num)),
              hdiv _ _ (hcount _ _ (by norm_num)),
              hdiv _ _ (hcount _ _ (by norm_num))⟩

/-- Witness for C8 at a concrete accepted input pair. -/
theorem bad_percent_threshold_monotone_witness :
    (⟨100, 100, 0, 0, 0, 0, 0, 0, 0, 1, 1, 1, 1, 1, 1⟩ : ErrReport).bad1_p
        ≤ (⟨100, 100, 0, 0, 0, 0, 0, 0, 0, 1, 1, 1, 1, 1, 1⟩ : ErrReport).bad05_p ∧
    (⟨100, 100, 0, 0, 0, 0, 0, 0, 0, 1, 1, 1, 1, 1, 1⟩ : ErrReport).bad2_p
        ≤ (⟨100, 100, 0, 0, 0, 0, 0, 0, 0, 1, 1, 1, 1, 1, 1⟩ : ErrReport).bad1_p ∧
    (⟨100, 100, 0, 0, 0, 0, 0, 0, 0, 1, 1, 1, 1, 1, 1⟩ : ErrReport).bad4_p
        ≤ (⟨100, 100, 0, 0, 0, 0, 0, 0, 0, 1, 1, 1, 1, 1, 1⟩ : ErrReport).bad2_p :=
  bad_percent_threshold_monotone ⟨1, 1, [some 1]⟩ ⟨1, 1, [some 2]⟩
    ⟨100, 100, 0, 0, 0, 0, 0, 0, 0, 1, 1, 1, 1, 1, 1⟩
    ⟨1, 1, [some 1]⟩ ⟨1, 1, [some 2]⟩ (by decide)

/-! getD lemmas for the in-place zeroing -/

theorem getD_map_px (f : Px → Px) (l : List Px) (i : ℕ) (hi : i < l.length) :
    (l.map f).getD i none = f (l.getD i none) := by
  induction l generalizing i with
  | nil => simp at hi
  | cons a as ih =>
    cases i with
    | zero => simp
    | succ j =>
      have hj : j < as.length := by simpa using hi
      simpa using ih j hj

theorem getD_zipWith_px (f : Px → Px → Px) (l1 l2 : List Px) (i : ℕ)
    (h1 : i < l1.length) (h2 : i < l2.length) :
    (List.zipWith f l1 l2).getD i none = f (l1.getD i none) (l2.getD i none) := by
  induction l1 generalizing l2 i with
  | nil => simp at h1
  | cons a as ih =>
    cases l2 with
    | nil => simp at h2
    | cons b bs =>
      cases i with
      | zero => simp
      | succ j =>
        have hj1 : j < as.length := by simpa using h1
        have hj2 : j < bs.length := by simpa using h2
        simpa using ih bs j hj1 hj2

/-- Claim C9: the evaluator's in-place mutation of its inputs, as captured by
the zeroed arrays it produces (and returns on success): ground-truth entries
equal to `+infinity` become `0`, computed entries outside the joint validity
mask become `0`, every pixel valid in both maps keeps its original value in
both arrays, and the dimensions are untouched. -/
theorem in_place_zeroing (g o : DMap) (i : ℕ)
    (hig : i < g.data.length) (hio : i < o.data.length) :
    ((zeroGt g).hgt = g.hgt ∧ (zeroGt g).wid = g.wid ∧
     (zeroOak g o).hgt = o.hgt ∧ (zeroOak g o).wid = o.wid) ∧
    ((zeroGt g).data.getD i none
        = (if g.data.getD i none = none then some 0 else g.data.getD i none)) ∧
    ((zeroOak g o).data.getD i none
        = (if pxValid (g.data.getD i none) && pxValid (o.data.getD i none)
           then o.data.getD i none else some 0)) ∧
    (∀ r g2 o2, calculate_err_measures g o = .ok (r, g2, o2) →
        g2 = zeroGt g ∧ o2 = zeroOak g o) := by
  refine ⟨⟨rfl, rfl, rfl, rfl⟩, ?_, ?_, ?_⟩
  · rw [zeroGt, getD_map_px _ _ _ hig]
    cases g.data.getD i none <;> simp [pxValid]
  · rw [zeroOak, getD_zipWith_px _ _ _ _ hig hio]
  · intro r g2 o2 h
    unfold calculate_err_measures at h
    split at h
    · exact absurd h (by simp)
    · split at h
      · exact absurd h (by simp)
      · rw [Except.ok.injEq, Prod.mk.injEq, Prod.mk.injEq] at h
        exact ⟨h.2.1.symm, h.2.2.symm⟩

/-- Witness for C9 at a concrete input and position. -/
theorem in_place_zeroing_witness :
    ((zeroGt ⟨1, 2, [some 1, none]⟩).hgt = 1 ∧ (zeroGt ⟨1, 2, [some 1, none]⟩).wid = 2 ∧
     (zeroOak ⟨1, 2, [some 1, none]⟩ ⟨1, 2, [some 3, some 7]⟩).hgt = 1 ∧
     (zeroOak ⟨1, 2, [some 1, none]⟩ ⟨1, 2, [some 3, some 7]⟩).wid = 2) ∧
    ((zeroGt ⟨1, 2, [some 1, none]⟩).data.getD 1 none
        = (if (⟨1, 2, [some 1, none]⟩ : DMap).data.getD 1 none = none then some 0
           else (⟨1, 2, [some 1, none]⟩ : DMap).data.getD 1 none)) ∧
    ((zeroOak ⟨1, 2, [some 1, none]⟩ ⟨1, 2, [some 3, some 7]⟩).data.getD 1 none
        = (if pxValid ((⟨1, 2, [some 1, none]⟩ : DMap).data.getD 1 none)
              && pxValid ((⟨1, 2, [some 3, some 7]⟩ : DMap).data.getD 1 none)
           then (⟨1, 2, [some 3, some 7]⟩ : DMap).data.getD 1 none else some 0)) :=
  have h := in_place_zeroing ⟨1, 2, [some 1, none]⟩ ⟨1, 2, [some 3, some 7]⟩ 1
    (by decide) (by decide)
  ⟨⟨h.1.1, h.1.2.1, h.1.2.2.1, h.1.2.2.2⟩, h.2.1, h.2.2.1⟩

/-! ## Claim about DatasetManager -/

/-- Claim C10: with `k ≥ 1` datasets and an in-range index, `next` and `prev`
keep the index in `[0, k)`; `next` advances the index by exactly one at every
interior index and wraps `k-1` to `0`, `prev` steps it back by exactly one at
every nonzero index and wraps `0` to `k-1`, and `prev` after `next` restores
the state, hence the value returned by `get`. -/
theorem dataset_manager_cycle (m : DatasetManager) (k : ℕ)
    (hk : m.names.length = k) (h1 : 1 ≤ k)
    (hlo : 0 ≤ m.index) (hhi : m.index < (k : ℤ)) :
    (0 ≤ (m.next).1.index ∧ (m.next).1.index < (k : ℤ)) ∧
    (0 ≤ (m.prev).1.index ∧ (m.prev).1.index < (k : ℤ)) ∧
    (m.index < (k : ℤ) - 1 → (m.next).1.index = m.index + 1) ∧
    (0 < m.index → (m.prev).1.index = m.index - 1) ∧
    (m.index = (k : ℤ) - 1 → (m.next).1.index = 0) ∧
    (m.index = 0 → (m.prev).1.index = (k : ℤ) - 1) ∧
    ((m.next).1.prev).1 = m ∧ (((m.next).1.prev).1.get = m.get) := by
  have hkpos : (0 : ℤ) < (k : ℤ) := by exact_mod_cast h1
  have hk0 : (k : ℤ) ≠ 0 := hkpos.ne'
  have hneg : (-1 : ℤ) % (k : ℤ) = (k : ℤ) - 1 := by
    have h3 : ((k : ℤ) - 1) % (k : ℤ) = (k : ℤ) - 1 :=
      Int.emod_eq_of_lt (by omega) (by omega)
    calc (-1 : ℤ) % (k : ℤ) = (-1 + (k : ℤ) * 1) % (k : ℤ) := by
          rw [Int.add_mul_emod_self_left]
      _ = ((k : ℤ) - 1) % (k : ℤ) := by ring_nf
      _ = (k : ℤ) - 1 := h3
  have hnext : (m.next).1.index = (m.index + 1) % (k : ℤ) := by
    simp [DatasetManager.next, hk]
  have hprevi : (m.prev).1.index = (m.index - 1) % (k : ℤ) := by
    simp [DatasetManager.prev, hk]
  have hwrap : (m.index + 1) % (k : ℤ) = if m.index = (k : ℤ) - 1 then 0 else m.index + 1 := by
    by_cases hc : m.index = (k : ℤ) - 1
    · simp [hc, Int.emod_self]
    · rw [if_neg hc]
      exact Int.emod_eq_of_lt (by omega) (by omega)
  have hstate : ((m.next).1.prev).1 = m := by
    have hform : ((m.next).1.prev).1
        = ⟨m.path, m.names, ((m.index + 1) % (k : ℤ) - 1) % (k : ℤ)⟩ := by
      simp [DatasetManager.next, DatasetManager.prev, hk]
    have hval : ((m.index + 1) % (k : ℤ) - 1) % (k : ℤ) = m.index := by
      rw [hwrap]
      by_cases hc : m.index = (k : ℤ) - 1
      · rw [if_pos hc, zero_sub, hneg, hc]
      · rw [if_neg hc, add_sub_cancel_right]
        exact Int.emod_eq_of_lt hlo hhi
    rw [hform, hval]
  refine ⟨⟨?_, ?_⟩, ⟨?_, ?_⟩, ?_, ?_, ?_, ?_, hstate, ?_⟩
  · rw [hnext]
    exact Int.emod_nonneg _ hk0
  · rw [hnext]
    exact Int.emod_lt_of_pos _ hkpos
  · rw [hprevi]
    exact Int.emod_nonneg _ hk0
  · rw [hprevi]
    exact Int.emod_lt_of_pos _ hkpos
  · intro hc
    rw [hnext, hwrap, if_neg (by omega)]
  · intro hc
    rw [hprevi]
    exact Int.emod_eq_of_lt (by omega) (by omega)
  · intro hc
    rw [hnext, hwrap, if_pos hc]
  · intro hc
    rw [hprevi, hc, zero_sub, hneg]
  · rw [hstate]

/-! ## Lemmas about the PFM byte-level model -/

theorem readlineAux_append {l : List ℕ} (rest : List ℕ) (h : ∀ c ∈ l, c ≠ 10) :
    readlineAux (l ++ 10 :: rest) = (l ++ [10], rest) := by
  induction l with
  | nil => simp [readlineAux]
  | cons c cs ih =>
    have hc : c ≠ 10 := h c (by simp)
    simp [readlineAux, hc, ih (fun d hd => h d (List.mem_cons_of_mem c hd))]

theorem rstrip_append_nl (l : List ℕ) : rstrip (l ++ [10]) = rstrip l := by
  unfold rstrip
  rw [List.reverse_append]
  simp [List.dropWhile, wsByte]

theorem decodeAscii_append_nl {l : List ℕ} (h : l.all (fun c => c < 128) = true) :
    decodeAscii (l ++ [10]) = some (l ++ [10]) := by
  unfold decodeAscii
  rw [if_pos]
  rw [List.all_append, h]
  decide

theorem chunk4_length : ∀ l : List ℕ, (chunk4 l).length = l.length / 4
  | [] => rfl
  | [_] => by simp [chunk4]
  | [_, _] => by simp [chunk4]
  | [_, _, _] => by simp [chunk4]
  | a :: b :: c :: d :: rest => by
    show (chunk4 (a :: b :: c :: d :: rest)).length = _
    rw [chunk4]
    have ih := chunk4_length rest
    simp only [List.length_cons, ih]
    omega

theorem decodePayload_length (e : Bool) (p : List ℕ) :
    (decodePayload e p).length = p.length / 4 := by
  unfold decodePayload
  rw [List.length_map, chunk4_length]

/-- Unfolding of `read_pfm` on a well-formed assembled PFM file. -/
theorem read_pfm_mk (color : Bool) (dimLine scaleLine payload : List ℕ)
    (r1 r2 : List ℕ) (q : ℚ) (w h : ℕ)
    (hd10 : ∀ c ∈ dimLine, c ≠ 10)
    (hdasc : dimLine.all (fun c => c < 128) = true)
    (hs10 : ∀ c ∈ scaleLine, c ≠ 10)
    (hsearch : dimSearch (dimLine ++ [10]) = some (r1, r2))
    (hq : parseFloat (rstrip scaleLine) = some q)
    (hw : digitsVal r1 = w) (hh : digitsVal r2 = h)
    (hlen : payload.length / 4 = h * w * (if color then 3 else 1)) :
    read_pfm (mkPFM (if color then [80, 70] else [80, 102]) dimLine scaleLine payload)
      = (.ok (⟨if color then [h, w, 3] else [h, w],
              flipRows (w * (if color then 3 else 1))
                (decodePayload (decide (q < 0)) payload)⟩,
             if q < 0 then -q else q),
         ⟨[], true⟩) := by
  have hrest : readRest color (dimLine ++ 10 :: (scaleLine ++ 10 :: payload))
      = (.ok (⟨if color then [h, w, 3] else [h, w],
              flipRows (w * (if color then 3 else 1))
                (decodePayload (decide (q < 0)) payload)⟩,
             if q < 0 then -q else q),
         ⟨[], true⟩) := by
    unfold readRest
    rw [readlineAux_append _ hd10]
    simp only
    rw [decodeAscii_append_nl hdasc]
    simp only
    rw [hsearch]
    simp only
    rw [readlineAux_append _ hs10]
    simp only
    rw [rstrip_append_nl, hq]
    simp only
    rw [decodePayload_length]
    rw [hw, hh, hlen]
    simp
  cases color with
  | false => exact hrest
  | true => exact hrest

theorem chunkBy_cons_of (n : ℕ) (hn : n ≠ 0) (l : List F32) (hl : l ≠ []) :
    chunkBy n l = l.take n :: chunkBy n (l.drop n) := by
  cases l with
  | nil => exact absurd rfl hl
  | cons x xs =>
    rw [chunkBy, if_neg hn]

theorem chunkBy_append (n : ℕ) (hn : 0 < n) (c l : List F32) (hc : c.length = n) :
    chunkBy n (c ++ l) = c :: chunkBy n l := by
  have hcne : c ≠ [] := by
    intro hnil
    rw [hnil] at hc
    simp at hc
    omega
  have hne : c ++ l ≠ [] := by simp [hcne]
  rw [chunkBy_cons_of n hn.ne' _ hne, ← hc, List.take_left, List.drop_left]

theorem chunkBy_flatten (n : ℕ) (hn : 0 < n) (cs : List (List F32))
    (h : ∀ c ∈ cs, c.length = n) : chunkBy n cs.flatten = cs := by
  induction cs with
  | nil => simp [chunkBy]
  | cons c cs ih =>
    rw [List.flatten_cons, chunkBy_append n hn c _ (h c (by simp)),
        ih (fun d hd => h d (List.mem_cons_of_mem c hd))]

theorem chunkBy_spec (n : ℕ) (hn : 0 < n) : ∀ (m : ℕ) (l : List F32),
    l.length = m * n →
    (chunkBy n l).length = m ∧ ∀ c ∈ chunkBy n l, c.length = n := by
  intro m
  induction m with
  | zero =>
    intro l hl
    have hnil : l = [] := List.eq_nil_of_length_eq_zero (by simpa using hl)
    subst hnil
    simp [chunkBy]
  | succ m ih =>
    intro l hl
    have hlge : n ≤ l.length := by rw [hl]; calc n = 1 * n := (one_mul n).symm
      _ ≤ (m + 1) * n := Nat.mul_le_mul_right n (by omega)
    have hlne : l ≠ [] := by
      intro hnil
      rw [hnil] at hl
      simp at hl
      omega
    rw [chunkBy_cons_of n hn.ne' l hlne]
    have htake : (l.take n).length = n := by
      rw [List.length_take]
      omega
    have hdrop : (l.drop n).length = m * n := by
      rw [List.length_drop, hl]
      ring_nf
      omega
    obtain ⟨ihl, ihm⟩ := ih (l.drop n) hdrop
    refine ⟨by simp [ihl], ?_⟩
    intro c hc
    rcases List.mem_cons.mp hc with hc | hc
    · rw [hc]
      exact htake
    · exact ihm c hc

theorem chunkBy_flipRows (n : ℕ) (hn : 0 < n) (m : ℕ) (d : List F32)
    (hd : d.length = m * n) :
    chunkBy n (flipRows n d) = (chunkBy n d).reverse := by
  unfold flipRows
  exact chunkBy_flatten n hn _
    (fun c hc => (chunkBy_spec n hn m d hd).2 c (List.mem_reverse.mp hc))

/-- Unfolding of `read_pfm` on a file whose dimension line the regex rejects. -/
theorem read_pfm_mk_malformed (color : Bool) (dimLine scaleLine payload : List ℕ)
    (hd10 : ∀ c ∈ dimLine, c ≠ 10)
    (hdasc : dimLine.all (fun c => c < 128) = true)
    (hnone : dimSearch (dimLine ++ [10]) = none) :
    read_pfm (mkPFM (if color then [80, 70] else [80, 102]) dimLine scaleLine payload)
      = (.error .malformedHeader, ⟨scaleLine ++ 10 :: payload, true⟩) := by
  have hrest : readRest color (dimLine ++ 10 :: (scaleLine ++ 10 :: payload))
      = (.error .malformedHeader, ⟨scaleLine ++ 10 :: payload, true⟩) := by
    unfold readRest
    rw [readlineAux_append _ hd10]
    simp only
    rw [decodeAscii_append_nl hdasc]
    simp only
    rw [hnone]
  cases color with
  | false => exact hrest
  | true => exact hrest

/-! ## Claims about read_pfm -/

/-- Claim C2 (amended): `read_pfm` never explicitly closes the file handle it
opens — not on success and not on any parse-failure path; the handle is still
open at every exit. -/
theorem readRest_handle_open (color : Bool) (rest : List ℕ) :
    (readRest color rest).2.isOpen = true := by
  unfold readRest
  dsimp only
  repeat' split <;> try rfl

theorem read_pfm_handle_never_closed (bytes : List ℕ) :
    (read_pfm bytes).2.isOpen = true := by
  unfold read_pfm
  dsimp only
  split
  · rfl
  · split
    · exact readRest_handle_open true _
    · split
      · exact readRest_handle_open false _
      · rfl

/-- Counterexample to Claim C2 as stated: on the bad-magic parse-failure path
the handle is not released (and no exit path releases it). -/
theorem read_pfm_handle_open_on_failure :
    (read_pfm [88, 88, 10]).1 = .error .notPFM ∧
    (read_pfm [88, 88, 10]).2.isOpen = true := by
  constructor <;> rfl

/-- Claim C5: on a well-formed PFM file with header `width = w`, `height = h`,
`read_pfm` returns an array of shape `[h, w]` (magic `"Pf"`) or `[h, w, 3]`
(magic `"PF"`), whose rows are the stored scan-lines in reverse order: output
row `0` is the last stored scan-line and output row `h - 1` the first. -/
theorem pfm_shape_and_vertical_flip (color : Bool)
    (dimLine scaleLine payload : List ℕ) (r1 r2 : List ℕ) (q : ℚ) (w h : ℕ)
    (hd10 : ∀ c ∈ dimLine, c ≠ 10)
    (hdasc : dimLine.all (fun c => c < 128) = true)
    (hs10 : ∀ c ∈ scaleLine, c ≠ 10)
    (hsearch : dimSearch (dimLine ++ [10]) = some (r1, r2))
    (hq : parseFloat (rstrip scaleLine) = some q)
    (hw : digitsVal r1 = w) (hh : digitsVal r2 = h)
    (hlen : payload.length / 4 = h * w * (if color then 3 else 1))
    (hw0 : 0 < w) (hh0 : 0 < h) :
    (read_pfm (mkPFM (if color then [80, 70] else [80, 102])
        dimLine scaleLine payload)).1
      = .ok (⟨if color then [h, w, 3] else [h, w],
             flipRows (w * (if color then 3 else 1))
               (decodePayload (decide (q < 0)) payload)⟩,
            if q < 0 then -q else q) ∧
    chunkBy (w * (if color then 3 else 1))
        (flipRows (w * (if color then 3 else 1))
          (decodePayload (decide (q < 0)) payload))
      = (chunkBy (w * (if color then 3 else 1))
          (decodePayload (decide (q < 0)) payload)).reverse ∧
    (chunkBy (w * (if color then 3 else 1))
        (flipRows (w * (if color then 3 else 1))
          (decodePayload (decide (q < 0)) payload)))[0]?
      = (chunkBy (w * (if color then 3 else 1))
          (decodePayload (decide (q < 0)) payload))[h - 1]? ∧
    (chunkBy (w * (if color then 3 else 1))
        (flipRows (w * (if color then 3 else 1))
          (decodePayload (decide (q < 0)) payload)))[h - 1]?
      = (chunkBy (w * (if color then 3 else 1))
          (decodePayload (decide (q < 0)) payload))[0]? := by
  have hchans : 0 < (if color then 3 else 1) := by cases color <;> simp
  have hn : 0 < w * (if color then 3 else 1) := Nat.mul_pos hw0 hchans
  have hdlen : (decodePayload (decide (q < 0)) payload).length
      = h * (w * (if color then 3 else 1)) := by
    rw [decodePayload_length, hlen, Nat.mul_assoc]
  have hspec := chunkBy_spec _ hn h _ hdlen
  have hrev := chunkBy_flipRows _ hn h _ hdlen
  refine ⟨?_, hrev, ?_, ?_⟩
  · rw [read_pfm_mk color dimLine scaleLine payload r1 r2 q w h
        hd10 hdasc hs10 hsearch hq hw hh hlen]
  · rw [hrev, List.getElem?_reverse (by rw [hspec.1]; exact hh0)]
    rw [hspec.1]
    simp
  · rw [hrev, List.getElem?_reverse (by rw [hspec.1]; omega)]
    rw [hspec.1]
    congr 1
    omega

/-- Witness for C5 at a concrete grayscale 1x2 file (two scan-lines holding
IEEE-754 encodings of 1.0 and 2.0). -/
theorem pfm_shape_and_vertical_flip_witness :
    (read_pfm (mkPFM [80, 102] [49, 32, 50] [49] [63, 128, 0, 0, 64, 0, 0, 0])).1
        = .ok (⟨[2, 1], flipRows 1 (decodePayload false [63, 128, 0, 0, 64, 0, 0, 0])⟩, 1) ∧
    chunkBy 1 (flipRows 1 (decodePayload false [63, 128, 0, 0, 64, 0, 0, 0]))
        = (chunkBy 1 (decodePayload false [63, 128, 0, 0, 64, 0, 0, 0])).reverse ∧
    (chunkBy 1 (flipRows 1 (decodePayload false [63, 128, 0, 0, 64, 0, 0, 0])))[0]?
        = (chunkBy 1 (decodePayload false [63, 128, 0, 0, 64, 0, 0, 0]))[1]? ∧
    (chunkBy 1 (flipRows 1 (decodePayload false [63, 128, 0, 0, 64, 0, 0, 0])))[1]?
        = (chunkBy 1 (decodePayload false [63, 128, 0, 0, 64, 0, 0, 0]))[0]? :=
  pfm_shape_and_vertical_flip false [49, 32, 50] [49] [63, 128, 0, 0, 64, 0, 0, 0]
    [49] [50] 1 1 2 (by decide) (by decide) (by decide) (by decide) (by decide)
    (by decide) (by decide) (by decide) (by decide) (by decide)

/-- Claim C4: the sign of the parsed scale selects the payload byte order
(negative selects little-endian, non-negative big-endian), the same 4-byte
float pattern decodes identically under either encoding with the bytes
reversed, the returned scale is the magnitude of the parsed value, and the
scale is never multiplied into the returned pixel data (two files differing
only in the scale magnitude decode to the same array). -/
theorem pfm_scale_sign_endianness (color : Bool)
    (dimLine scaleLine payload : List ℕ) (r1 r2 : List ℕ) (q : ℚ) (w h : ℕ)
    (hd10 : ∀ c ∈ dimLine, c ≠ 10)
    (hdasc : dimLine.all (fun c => c < 128) = true)
    (hs10 : ∀ c ∈ scaleLine, c ≠ 10)
    (hsearch : dimSearch (dimLine ++ [10]) = some (r1, r2))
    (hq : parseFloat (rstrip scaleLine) = some q)
    (hw : digitsVal r1 = w) (hh : digitsVal r2 = h)
    (hlen : payload.length / 4 = h * w * (if color then 3 else 1)) :
    ((read_pfm (mkPFM (if color then [80, 70] else [80, 102])
        dimLine scaleLine payload)).1
      = .ok (⟨if color then [h, w, 3] else [h, w],
             flipRows (w * (if color then 3 else 1))
               (decodePayload (decide (q < 0)) payload)⟩,
            if q < 0 then -q else q)) ∧
    (∀ b0 b1 b2 b3 : ℕ,
      decodeWord (wordLE [b0, b1, b2, b3]) = decodeWord (wordBE [b3, b2, b1, b0])) ∧
    (∀ scaleLine2 q2, (∀ c ∈ scaleLine2, c ≠ 10) →
      parseFloat (rstrip scaleLine2) = some q2 → ((q2 < 0) ↔ (q < 0)) →
      ((read_pfm (mkPFM (if color then [80, 70] else [80, 102])
          dimLine scaleLine2 payload)).1).map Prod.fst
        = ((read_pfm (mkPFM (if color then [80, 70] else [80, 102])
            dimLine scaleLine payload)).1).map Prod.fst) := by
  refine ⟨?_, ?_, ?_⟩
  · rw [read_pfm_mk color dimLine scaleLine payload r1 r2 q w h
        hd10 hdasc hs10 hsearch hq hw hh hlen]
  · intro b0 b1 b2 b3
    have hwords : wordLE [b0, b1, b2, b3] = wordBE [b3, b2, b1, b0] := by
      simp only [wordLE, wordBE]
      ring
    rw [hwords]
  · intro s2 q2 hs2 hq2 hiff
    have hdq : decide (q2 < 0) = decide (q < 0) := decide_eq_decide.mpr hiff
    rw [read_pfm_mk color dimLine s2 payload r1 r2 q2 w h
          hd10 hdasc hs2 hsearch hq2 hw hh hlen,
        read_pfm_mk color dimLine scaleLine payload r1 r2 q w h
          hd10 hdasc hs10 hsearch hq hw hh hlen]
    simp only [Except.map]
    rw [hdq]

/-- Witness for C4 at a concrete file with negative scale `-2.5` (payload
little-endian), compared against scale `-7`. -/
theorem pfm_scale_sign_endianness_witness :
    ((read_pfm (mkPFM [80, 102] [49, 32, 49] [45, 50, 46, 53] [0, 0, 128, 63])).1
      = .ok (⟨[1, 1], flipRows 1 (decodePayload true [0, 0, 128, 63])⟩, 5/2)) ∧
    (decodeWord (wordLE [0, 0, 128, 63]) = decodeWord (wordBE [63, 128, 0, 0])) ∧
    (((read_pfm (mkPFM [80, 102] [49, 32, 49] [45, 55] [0, 0, 128, 63])).1).map Prod.fst
      = ((read_pfm (mkPFM [80, 102] [49, 32, 49] [45, 50, 46, 53] [0, 0, 128, 63])).1).map
          Prod.fst) := by
  have H := pfm_scale_sign_endianness false [49, 32, 49] [45, 50, 46, 53]
    [0, 0, 128, 63] [49] [49] (-5/2) 1 1 (by decide) (by decide) (by decide)
    (by decide) (by decide) (by decide) (by decide) (by decide)
  refine ⟨?_, ?_, ?_⟩
  · exact H.1
  · exact H.2.1 0 0 128 63
  · exact H.2.2 [45, 55] (-7) (by decide) (by decide) (by decide)

/-- Claim C6 (amended): `read_pfm` scans the second header line for the first
occurrence of a digit run, a single whitespace character, and a digit run
(the regex `(\d+)\s(\d+)` under `re.search`); when no such occurrence exists
the load fails with the malformed-header error, and when one exists the two
matched digit runs (which may be zero, and may sit inside surrounding text)
are used as `(width, height)`. -/
theorem dim_line_parse_behavior (color : Bool) (dimLine scaleLine payload : List ℕ)
    (hd10 : ∀ c ∈ dimLine, c ≠ 10)
    (hdasc : dimLine.all (fun c => c < 128) = true) :
    (dimSearch (dimLine ++ [10]) = none →
      read_pfm (mkPFM (if color then [80, 70] else [80, 102]) dimLine scaleLine payload)
        = (.error .malformedHeader, ⟨scaleLine ++ 10 :: payload, true⟩)) ∧
    (∀ r1 r2 q w h, dimSearch (dimLine ++ [10]) = some (r1, r2) →
      (∀ c ∈ scaleLine, c ≠ 10) → parseFloat (rstrip scaleLine) = some q →
      digitsVal r1 = w → digitsVal r2 = h →
      payload.length / 4 = h * w * (if color then 3 else 1) →
      read_pfm (mkPFM (if color then [80, 70] else [80, 102]) dimLine scaleLine payload)
        = (.ok (⟨if color then [h, w, 3] else [h, w],
                flipRows (w * (if color then 3 else 1))
                  (decodePayload (decide (q < 0)) payload)⟩,
               if q < 0 then -q else q),
           ⟨[], true⟩)) :=
  ⟨fun hnone => read_pfm_mk_malformed color dimLine scaleLine payload hd10 hdasc hnone,
   fun r1 r2 q w h hsearch hs10 hq hw hh hlen =>
     read_pfm_mk color dimLine scaleLine payload r1 r2 q w h
       hd10 hdasc hs10 hsearch hq hw hh hlen⟩

/-- Witness for C6's amended theorem: a non-matching line (`"x"`) fails with
the malformed-header error; a matching line (`"2 1"`) is used as the
dimensions. -/
theorem dim_line_parse_behavior_witness :
    read_pfm (mkPFM [80, 102] [120] [49] []) = (.error .malformedHeader, ⟨[49, 10], true⟩) ∧
    read_pfm (mkPFM [80, 102] [50, 32, 49] [50] [0, 0, 0, 0, 63, 128, 0, 0])
      = (.ok (⟨[1, 2], flipRows 2 (decodePayload false [0, 0, 0, 0, 63, 128, 0, 0])⟩, 2),
         ⟨[], true⟩) :=
  ⟨(dim_line_parse_behavior false [120] [49] [] (by decide) (by decide)).1 (by decide),
   (dim_line_parse_behavior false [50, 32, 49] [50] [0, 0, 0, 0, 63, 128, 0, 0]
      (by decide) (by decide)).2 [50] [49] 2 2 1 (by decide) (by decide) (by decide)
      (by decide) (by decide) (by decide)⟩

/-- Counterexample to Claim C6 as stated: the line `"0 0"` contains no pair of
positive integers yet the load succeeds (width = height = 0), and the line
`"1  2"` contains the whitespace-separated positive integers 1 and 2 yet the
load fails, because the regex accepts exactly one whitespace character. -/
theorem dim_line_counterexample :
    read_pfm (mkPFM [80, 102] [48, 32, 48] [49] []) = (.ok (⟨[0, 0], []⟩, 1), ⟨[], true⟩) ∧
    read_pfm (mkPFM [80, 102] [49, 32, 32, 50] [49] [0, 0, 128, 63])
      = (.error .malformedHeader, ⟨[49, 10, 0, 0, 128, 63], true⟩) := by
  constructor
  · have H := read_pfm_mk false [48, 32, 48] [49] [] [48] [48] 1 0 0
      (by decide) (by decide) (by decide) (by decide) (by decide) (by decide)
      (by decide) (by decide)
    exact H.trans (by norm_num [flipRows, chunkBy, decodePayload, chunk4])
  · decide

/-- Witness for C10: at a three-dataset manager on the interior index `1`,
`next` yields index `2` and `prev` index `0`, the bounds hold, and `prev`
after `next` restores the state and `get`; at a two-dataset manager `next`
wraps index `1` to `0` and `prev` wraps index `0` to `1`. -/
theorem dataset_manager_cycle_witness :
    (0 ≤ ((⟨"d", ["a", "b", "c"], 1⟩ : DatasetManager).next).1.index ∧
     ((⟨"d", ["a", "b", "c"], 1⟩ : DatasetManager).next).1.index < (3 : ℤ)) ∧
    (0 ≤ ((⟨"d", ["a", "b", "c"], 1⟩ : DatasetManager).prev).1.index ∧
     ((⟨"d", ["a", "b", "c"], 1⟩ : DatasetManager).prev).1.index < (3 : ℤ)) ∧
    (((⟨"d", ["a", "b", "c"], 1⟩ : DatasetManager).next).1.index = 2) ∧
    (((⟨"d", ["a", "b", "c"], 1⟩ : DatasetManager).prev).1.index = 0) ∧
    ((((⟨"d", ["a", "b", "c"], 1⟩ : DatasetManager).next).1.prev).1
        = ⟨"d", ["a", "b", "c"], 1⟩) ∧
    ((((⟨"d", ["a", "b", "c"], 1⟩ : DatasetManager).next).1.prev).1.get
        = (⟨"d", ["a", "b", "c"], 1⟩ : DatasetManager).get) ∧
    (((⟨"d", ["a", "b"], 1⟩ : DatasetManager).next).1.index = 0) ∧
    (((⟨"d", ["a", "b"], 0⟩ : DatasetManager).prev).1.index = 1) := by
  have hA := dataset_manager_cycle ⟨"d", ["a", "b", "c"], 1⟩ 3
    (by decide) (by decide) (by decide) (by decide)
  have hB := dataset_manager_cycle ⟨"d", ["a", "b"], 1⟩ 2
    (by decide) (by decide) (by decide) (by decide)
  have hC := dataset_manager_cycle ⟨"d", ["a", "b"], 0⟩ 2
    (by decide) (by decide) (by decide) (by decide)
  exact ⟨hA.1, hA.2.1, hA.2.2.1 (by decide), hA.2.2.2.1 (by decide),
         hA.2.2.2.2.2.2.1, hA.2.2.2.2.2.2.2,
         hB.2.2.2.2.1 (by decide), hC.2.2.2.2.2.1 (by decide)⟩

end StereoDepthHost
